import Mathlib

/-!
# Verification of `mtimes` from `CollisionDetector_mex_wrapper/mtimes.h`

The repository ships only the generated header, which declares

  void mtimes(const real_T A[8], const real_T B_data[], const int32_T B_size[2],
              real_T C_data[], int32_T C_size[2]);

`real_T` is `double` and `int32_T` a signed 32-bit integer (MathWorks
`rtwtypes.h` conventions).  The translation unit with the body of `mtimes`
is not part of the repository, so the body is modelled from the
specification.  Scalars are embedded as exact rationals `ℚ` (the spec's
contract is exact: `C[i][j] = Σ k, A[i][k]*B[k][j]`, and its identity
property demands bit-for-bit equality, so no rounding model is involved).
Flat `double` buffers become `List ℚ`; a read `p[i]` becomes `List.getD i 0`.
The layout is the MATLAB/coder column-major convention: the 2x4 matrix `A`
stores entry `(i,k)` at flat index `i + 2*k`, the 4xn matrix `B` stores
`(k,j)` at `k + 4*j`, and the 2xn result `C` stores `(i,j)` at `i + 2*j`.
-/

namespace CollisionDetector

/-- Modelled from the spec: the implementation translation unit of `mtimes`
(declared in `mtimes.h`; its `.c` body is absent from the repository).
Per the spec's contract, `C[i][j] = sum over k < 4 of A[i][k] * B[k][j]`
for `i < 2` and `j < B_size[1]`, and `C_size = [2, B_size[1]]`.
The result pair is `(C_data, C_size)`; `C_data` is produced column by
column (column-major), so entry `(i,j)` sits at flat position `i + 2*j`. -/
def mtimes (A : List ℚ) (B_data : List ℚ) (B_size : Int × Int) :
    List ℚ × (Int × Int) :=
  let n := B_size.2.toNat
  (((List.range n).flatMap fun j =>
      (List.range 2).map fun i =>
        ((List.range 4).map fun k =>
          A.getD (i + 2 * k) 0 * B_data.getD (k + 4 * j) 0).sum),
   (2, B_size.2))

/-- The naive triple-loop reference product of the spec: the `(i,j)` entry
of `A * B` is the sum over `k < 4` of `A[i][k] * B[k][j]`, reading the flat
buffers through the column-major layout. -/
def refEntry (A B_data : List ℚ) (i j : Nat) : ℚ :=
  ((List.range 4).map fun k =>
    A.getD (i + 2 * k) 0 * B_data.getD (k + 4 * j) 0).sum

/-- The 4x4 identity matrix as a flat column-major buffer (the layout is
symmetric, so the row-major buffer is identical). -/
def identity4 : List ℚ :=
  [1, 0, 0, 0,
   0, 1, 0, 0,
   0, 0, 1, 0,
   0, 0, 0, 1]

/-- The caller-visible memory of one `mtimes` call: the two input buffers,
the input shape pair, and the two output locations. -/
structure MtimesState where
  A : List ℚ
  B_data : List ℚ
  B_size : Int × Int
  C_data : List ℚ
  C_size : Int × Int

/-- One call of `mtimes` as a transformer on the caller-visible memory:
it stores the result into `C_data` and `C_size` and touches nothing else. -/
def mtimesRun (s : MtimesState) : MtimesState :=
  let r := mtimes s.A s.B_data s.B_size
  { s with C_data := r.1, C_size := r.2 }

/-- The multiply-add operations `mtimes` performs, mirroring its loop
structure: one per `(j, i, k)` with `j < n`, `i < 2`, `k < 4`. -/
def mtimesMulAdds (n : Nat) : Nat :=
  ((List.range n).flatMap fun _ =>
    (List.range 2).flatMap fun _ => List.range 4).length

/-- Smallest value of the `int32_T` type of `B_size` and `C_size` entries. -/
def int32Min : Int := -(2 ^ 31)

/-- Largest value of the `int32_T` type of `B_size` and `C_size` entries. -/
def int32Max : Int := 2 ^ 31 - 1

/-- A value representable in the `int32_T` type of `B_size`/`C_size`. -/
def isInt32 (x : Int) : Prop := int32Min ≤ x ∧ x ≤ int32Max

instance (x : Int) : Decidable (isInt32 x) := by
  unfold isInt32; infer_instance

/-! ## Helper lemmas -/

/-- `getD` below `m` only sees the first `m` elements of the buffer. -/
lemma getD_eq_of_take_eq (xs ys : List ℚ) (m i : Nat) (h : i < m)
    (hx : xs.take m = ys.take m) : xs.getD i 0 = ys.getD i 0 := by
  have hx' : (xs.take m)[i]? = (ys.take m)[i]? := by rw [hx]
  rw [List.getElem?_take, List.getElem?_take, if_pos h, if_pos h] at hx'
  simp [List.getD_eq_getElem?_getD, hx']

/-- Congruence for `flatMap` over an index range. -/
lemma flatMap_range_congr (n : Nat) (f g : Nat → List ℚ)
    (h : ∀ j ∈ List.range n, f j = g j) :
    (List.range n).flatMap f = (List.range n).flatMap g := by
  simp only [List.flatMap_def]
  rw [List.map_congr_left h]

/-- Length of a `flatMap` whose blocks all have the same length `c`. -/
lemma length_flatMap_const {α : Type} (f : Nat → List α) (c : Nat)
    (hf : ∀ j, (f j).length = c) :
    ∀ n, ((List.range n).flatMap f).length = c * n := by
  intro n
  induction n with
  | zero => simp
  | succ m ih =>
      rw [List.range_succ, List.flatMap_append, List.length_append, ih]
      simp [hf m]; ring

/-- Length of a `flatMap` whose blocks all have length 2. -/
lemma length_flatMap_two (f : Nat → List ℚ) (hf : ∀ j, (f j).length = 2) :
    ∀ n, ((List.range n).flatMap f).length = 2 * n :=
  length_flatMap_const f 2 hf

/-- Indexing a `flatMap` of length-2 blocks: flat position `i + 2*j`
lands at position `i` of block `j`. -/
lemma getD_flatMap_two (f : Nat → List ℚ) (hf : ∀ j, (f j).length = 2) :
    ∀ n i j, i < 2 → j < n →
      ((List.range n).flatMap f).getD (i + 2 * j) 0 = (f j).getD i 0 := by
  intro n
  induction n with
  | zero => intro i j _ hj; omega
  | succ m ih =>
      intro i j hi hj
      rw [List.range_succ, List.flatMap_append]
      rcases Nat.lt_or_ge j m with hjm | hjm
      · rw [List.getD_append]
        · exact ih i j hi hjm
        · rw [length_flatMap_two f hf m]; omega
      · have hjem : j = m := by omega
        subst hjem
        rw [List.getD_append_right]
        · rw [length_flatMap_two f hf j]
          have : i + 2 * j - 2 * j = i := by omega
          rw [this]
          simp
        · rw [length_flatMap_two f hf j]; omega

/-- The data part of `mtimes` at flat position `i + 2*j` is the reference
entry `(i, j)`. -/
lemma mtimes_getD (A B_data : List ℚ) (B_size : Int × Int) (i j : Nat)
    (hi : i < 2) (hj : j < B_size.2.toNat) :
    (mtimes A B_data B_size).1.getD (i + 2 * j) 0 = refEntry A B_data i j := by
  unfold mtimes refEntry
  have hf : ∀ jj, (((List.range 2).map fun ii =>
      ((List.range 4).map fun k =>
        A.getD (ii + 2 * k) 0 * B_data.getD (k + 4 * jj) 0).sum)).length = 2 := by
    intro jj; simp
  rw [getD_flatMap_two _ hf _ i j hi hj]
  interval_cases i <;> simp [List.range_succ]

/-- Length of the produced `C_data` buffer. -/
lemma mtimes_length (A B_data : List ℚ) (B_size : Int × Int) :
    (mtimes A B_data B_size).1.length = 2 * B_size.2.toNat := by
  unfold mtimes
  apply length_flatMap_two
  intro j; simp

/-- `mtimes` reads `A` only through its first 8 elements. -/
lemma mtimes_take_A (A A' B_data : List ℚ) (B_size : Int × Int)
    (h : A.take 8 = A'.take 8) :
    mtimes A B_data B_size = mtimes A' B_data B_size := by
  unfold mtimes
  refine congrArg (fun l => (l, (2, B_size.2))) ?_
  apply flatMap_range_congr
  intro j hj
  apply List.map_congr_left
  intro i hi
  apply congrArg List.sum
  apply List.map_congr_left
  intro k hk
  simp only [List.mem_range] at hi hk
  have hA : A.getD (i + 2 * k) 0 = A'.getD (i + 2 * k) 0 :=
    getD_eq_of_take_eq A A' 8 (i + 2 * k) (by omega) h
  rw [hA]

/-- `mtimes` reads `B_data` only through its first `4 * B_size[1]` elements. -/
lemma mtimes_take_B (A B_data B_data' : List ℚ) (B_size : Int × Int)
    (h : B_data.take (4 * B_size.2.toNat) = B_data'.take (4 * B_size.2.toNat)) :
    mtimes A B_data B_size = mtimes A B_data' B_size := by
  unfold mtimes
  refine congrArg (fun l => (l, (2, B_size.2))) ?_
  apply flatMap_range_congr
  intro j hj
  apply List.map_congr_left
  intro i hi
  apply congrArg List.sum
  apply List.map_congr_left
  intro k hk
  simp only [List.mem_range] at hj hk
  have hB : B_data.getD (k + 4 * j) 0 = B_data'.getD (k + 4 * j) 0 :=
    getD_eq_of_take_eq B_data B_data' (4 * B_size.2.toNat) (k + 4 * j)
      (by omega) h
  rw [hB]

/-- Multiplying by the 4x4 identity returns `A` itself (for `A` of the
declared length 8). -/
lemma mtimes_identity (A : List ℚ) (hA : A.length = 8) :
    (mtimes A identity4 (4, 4)).1 = A := by
  match A, hA with
  | [a0, a1, a2, a3, a4, a5, a6, a7], _ =>
    simp [mtimes, identity4, List.range_succ]

/-- The cost model counts `2 * 4 = 8` multiply-adds per output column. -/
lemma mtimesMulAdds_eq (n : Nat) : mtimesMulAdds n = 8 * n := by
  unfold mtimesMulAdds
  apply length_flatMap_const
  intro j; decide

/-! ## Claim theorems -/

/-- Claim C1 — for `B_size = [4, n]` with `B_data` holding at least `4*n`
elements, every entry of the produced `C_data` equals the naive triple-loop
reference product: `C[i][j] = sum over k < 4 of A[i][k] * B[k][j]` for all
`i < 2`, `j < n`. -/
theorem c1_mtimes_matches_reference (A B_data : List ℚ) (B_size : Int × Int)
    (hB4 : B_size.1 = 4) (hlen : 4 * B_size.2.toNat ≤ B_data.length)
    (i j : Nat) (hi : i < 2) (hj : j < B_size.2.toNat) :
    (mtimes A B_data B_size).1.getD (i + 2 * j) 0 = refEntry A B_data i j :=
  mtimes_getD A B_data B_size i j hi hj

/-- Witness for C1 at `A = [1,..,8]`, `B = [1,2,3,4]` (one column). -/
theorem c1_mtimes_matches_reference_witness :
    ((4 : Int), (1 : Int)).1 = 4 ∧
    4 * ((4 : Int), (1 : Int)).2.toNat ≤
      ([1, 2, 3, 4] : List ℚ).length ∧ 0 < 2 ∧
    0 < ((4 : Int), (1 : Int)).2.toNat ∧
    (mtimes [1, 2, 3, 4, 5, 6, 7, 8] [1, 2, 3, 4] (4, 1)).1.getD (0 + 2 * 0) 0 =
      refEntry [1, 2, 3, 4, 5, 6, 7, 8] [1, 2, 3, 4] 0 0 :=
  ⟨by decide, by decide, by decide, by decide,
   c1_mtimes_matches_reference [1, 2, 3, 4, 5, 6, 7, 8] [1, 2, 3, 4] (4, 1)
     (by decide) (by decide) 0 0 (by decide) (by decide)⟩

/-- Claim C2 — for `B_size = [4, n]` with `n ≥ 0`, the produced `C_size`
equals `[2, n]`, and when `n = 0` the produced `C_data` is empty. -/
theorem c2_output_shape (A B_data : List ℚ) (n : Int) (hn : 0 ≤ n) :
    (mtimes A B_data (4, n)).2 = (2, n) ∧
    (n = 0 → (mtimes A B_data (4, n)).1 = []) := by
  constructor
  · rfl
  · intro h0
    subst h0
    simp [mtimes]

/-- Witness for C2 at `n = 0`. -/
theorem c2_output_shape_witness :
    (0 : Int) ≤ 0 ∧
    (mtimes [1, 2, 3, 4, 5, 6, 7, 8] [] (4, 0)).2 = (2, 0) ∧
    ((0 : Int) = 0 → (mtimes [1, 2, 3, 4, 5, 6, 7, 8] [] (4, 0)).1 = []) :=
  ⟨by decide, c2_output_shape [1, 2, 3, 4, 5, 6, 7, 8] [] 0 (by decide)⟩

/-- Claim C3 — `B_size[0] = 4` is an unchecked precondition: the modelled
`mtimes` performs no validation of `B_size[0]` (its result is independent
of that entry) and signals no error through its outputs; even when
`B_size[0] ≠ 4` it returns the usual `C_size = [2, B_size[1]]` rather than
reporting a dimension mismatch. -/
theorem c3_no_dimension_validation (A B_data : List ℚ) (b0 b0' n : Int) :
    mtimes A B_data (b0, n) = mtimes A B_data (b0', n) ∧
    (mtimes A B_data (b0, n)).2 = (2, n) :=
  ⟨rfl, rfl⟩

/-- Claim C4 — determinism: two calls with equal `A`, `B_data` and `B_size`
produce equal `C_data` and `C_size`; the model is a pure function with no
internal or static state. -/
theorem c4_deterministic (A A' B_data B_data' : List ℚ)
    (B_size B_size' : Int × Int)
    (hA : A = A') (hB : B_data = B_data') (hs : B_size = B_size') :
    mtimes A B_data B_size = mtimes A' B_data' B_size' := by
  subst hA; subst hB; subst hs; rfl

/-- Witness for C4 at concrete equal inputs. -/
theorem c4_deterministic_witness :
    ([1, 2] : List ℚ) = [1, 2] ∧ ([3] : List ℚ) = [3] ∧
    ((4 : Int), (0 : Int)) = ((4 : Int), (0 : Int)) ∧
    mtimes [1, 2] [3] (4, 0) = mtimes [1, 2] [3] (4, 0) :=
  ⟨rfl, rfl, rfl, c4_deterministic [1, 2] [1, 2] [3] [3] (4, 0) (4, 0) rfl rfl rfl⟩

/-- Claim C5 — right identity: for any `A` of the declared length 8,
multiplying by the 4x4 identity matrix returns `A` exactly, element for
element (exact rational arithmetic: no rounding in the model). -/
theorem c5_right_identity (A : List ℚ) (hA : A.length = 8) :
    (mtimes A identity4 (4, 4)).1 = A :=
  mtimes_identity A hA

/-- Witness for C5 at `A = [1,..,8]`. -/
theorem c5_right_identity_witness :
    ([1, 2, 3, 4, 5, 6, 7, 8] : List ℚ).length = 8 ∧
    (mtimes [1, 2, 3, 4, 5, 6, 7, 8] identity4 (4, 4)).1 =
      [1, 2, 3, 4, 5, 6, 7, 8] :=
  ⟨by decide, c5_right_identity [1, 2, 3, 4, 5, 6, 7, 8] (by decide)⟩

/-- Claim C6 — frame property: a call leaves `A`, `B_data` and `B_size`
unchanged in the caller-visible memory and modifies only `C_data` and
`C_size`, which receive exactly the `mtimes` result. -/
theorem c6_inputs_unchanged (s : MtimesState) :
    (mtimesRun s).A = s.A ∧ (mtimesRun s).B_data = s.B_data ∧
    (mtimesRun s).B_size = s.B_size ∧
    (mtimesRun s).C_data = (mtimes s.A s.B_data s.B_size).1 ∧
    (mtimesRun s).C_size = (mtimes s.A s.B_data s.B_size).2 :=
  ⟨rfl, rfl, rfl, rfl, rfl⟩

/-- Claim C7 — in-bounds accesses: the result depends on `A` only through
indices below 8 and on `B_data` only through indices below `4 * B_size[1]`
(so all reads are in bounds under the stated preconditions), and the
produced `C_data` holds exactly `2 * B_size[1] = C_size[0] * C_size[1]`
elements. -/
theorem c7_in_bounds (A A' B_data B_data' : List ℚ) (B_size : Int × Int)
    (hA : A.take 8 = A'.take 8)
    (hB : B_data.take (4 * B_size.2.toNat) =
          B_data'.take (4 * B_size.2.toNat)) :
    mtimes A B_data B_size = mtimes A' B_data' B_size ∧
    (mtimes A B_data B_size).1.length = 2 * B_size.2.toNat ∧
    (mtimes A B_data B_size).2.1.toNat * (mtimes A B_data B_size).2.2.toNat =
      (mtimes A B_data B_size).1.length := by
  refine ⟨?_, mtimes_length A B_data B_size, ?_⟩
  · exact (mtimes_take_A A A' B_data B_size hA).trans
      (mtimes_take_B A' B_data B_data' B_size hB)
  · rw [mtimes_length A B_data B_size]
    rfl

/-- Witness for C7: buffers agreeing on the accessed prefixes (extra
trailing elements beyond the accessed region are ignored). -/
theorem c7_in_bounds_witness :
    ([1, 2, 3, 4, 5, 6, 7, 8, 99] : List ℚ).take 8 =
      ([1, 2, 3, 4, 5, 6, 7, 8] : List ℚ).take 8 ∧
    ([1, 2, 3, 4, 55] : List ℚ).take (4 * ((4 : Int), (1 : Int)).2.toNat) =
      ([1, 2, 3, 4] : List ℚ).take (4 * ((4 : Int), (1 : Int)).2.toNat) ∧
    mtimes [1, 2, 3, 4, 5, 6, 7, 8, 99] [1, 2, 3, 4, 55] (4, 1) =
      mtimes [1, 2, 3, 4, 5, 6, 7, 8] [1, 2, 3, 4] (4, 1) ∧
    (mtimes [1, 2, 3, 4, 5, 6, 7, 8, 99] [1, 2, 3, 4, 55] (4, 1)).1.length =
      2 * ((4 : Int), (1 : Int)).2.toNat ∧
    (mtimes [1, 2, 3, 4, 5, 6, 7, 8, 99] [1, 2, 3, 4, 55] (4, 1)).2.1.toNat *
      (mtimes [1, 2, 3, 4, 5, 6, 7, 8, 99] [1, 2, 3, 4, 55] (4, 1)).2.2.toNat =
      (mtimes [1, 2, 3, 4, 5, 6, 7, 8, 99] [1, 2, 3, 4, 55] (4, 1)).1.length :=
  ⟨by decide, by decide,
   c7_in_bounds [1, 2, 3, 4, 5, 6, 7, 8, 99] [1, 2, 3, 4, 5, 6, 7, 8]
     [1, 2, 3, 4, 55] [1, 2, 3, 4] (4, 1) (by decide) (by decide)⟩

/-- Claim C8 — termination and bounded work: every call returns a result
(the model is a total function), and the work performed is exactly
`2 * 4 * B_size[1]` scalar multiply-add operations — four per produced
output element. -/
theorem c8_terminates_bounded_work (A B_data : List ℚ) (B_size : Int × Int) :
    (∃ C, mtimes A B_data B_size = C) ∧
    mtimesMulAdds B_size.2.toNat = 2 * 4 * B_size.2.toNat ∧
    mtimesMulAdds B_size.2.toNat = 4 * (mtimes A B_data B_size).1.length := by
  refine ⟨⟨mtimes A B_data B_size, rfl⟩, ?_, ?_⟩
  · rw [mtimesMulAdds_eq]
  · rw [mtimesMulAdds_eq, mtimes_length]; ring

/-- Claim C9 — `A` is exactly 8 scalars: the result depends on `A` only
through its first 8 elements (the declared fixed size), and each of those
8 positions is live — perturbing any single one of them changes the
result, as the 2x4 interpretation uses all 8. -/
theorem c9_A_exactly_eight :
    (∀ A A' B_data : List ℚ, ∀ B_size : Int × Int,
        A.take 8 = A'.take 8 →
        mtimes A B_data B_size = mtimes A' B_data B_size) ∧
    (∀ p, p < 8 →
        mtimes ((List.replicate 8 (0 : ℚ)).set p 1) identity4 (4, 4) ≠
        mtimes (List.replicate 8 (0 : ℚ)) identity4 (4, 4)) := by
  constructor
  · intro A A' B_data B_size h
    exact mtimes_take_A A A' B_data B_size h
  · intro p hp hEq
    have e1 := mtimes_identity ((List.replicate 8 (0 : ℚ)).set p 1) (by simp)
    have e2 := mtimes_identity (List.replicate 8 (0 : ℚ)) rfl
    have hls : (List.replicate 8 (0 : ℚ)).set p 1 = List.replicate 8 0 := by
      rw [← e1, hEq, e2]
    have hget : ((List.replicate 8 (0 : ℚ)).set p 1)[p]? =
        (List.replicate 8 (0 : ℚ))[p]? := by rw [hls]
    rw [List.getElem?_set_self, List.getElem?_replicate] at hget
    · simp [hp] at hget
    · simp [hp]

/-- Witness for C9: a ninth element of the `A` buffer is ignored. -/
theorem c9_A_exactly_eight_witness :
    ([1, 2, 3, 4, 5, 6, 7, 8, 99] : List ℚ).take 8 =
      ([1, 2, 3, 4, 5, 6, 7, 8] : List ℚ).take 8 ∧
    mtimes [1, 2, 3, 4, 5, 6, 7, 8, 99] [1, 2, 3, 4] (4, 1) =
      mtimes [1, 2, 3, 4, 5, 6, 7, 8] [1, 2, 3, 4] (4, 1) :=
  ⟨by decide,
   c9_A_exactly_eight.1 [1, 2, 3, 4, 5, 6, 7, 8, 99] [1, 2, 3, 4, 5, 6, 7, 8]
     [1, 2, 3, 4] (4, 1) (by decide)⟩

/-- Claim C10 — `int32_T` interface bound: every `int32_T`-representable
dimension is at most `2^31 - 1`; the type also admits negative values
(`-1` is representable), and the modelled `mtimes` accepts a negative
`B_size[1]` without any error — it simply produces no elements while
echoing the negative count into `C_size` — so non-negativity is a caller
precondition that the interface does not enforce. -/
theorem c10_int32_interface (x : Int) (hx : isInt32 x) :
    x ≤ 2 ^ 31 - 1 ∧ isInt32 (-1) ∧
    (∀ A B_data : List ℚ, mtimes A B_data (4, -1) = ([], (2, -1))) := by
  refine ⟨hx.2, by decide, ?_⟩
  intro A B_data
  rfl

/-- Witness for C10 at `x = 5`. -/
theorem c10_int32_interface_witness :
    isInt32 5 ∧
    ((5 : Int) ≤ 2 ^ 31 - 1 ∧ isInt32 (-1) ∧
     (∀ A B_data : List ℚ, mtimes A B_data (4, -1) = ([], (2, -1)))) :=
  ⟨by decide, c10_int32_interface 5 (by decide)⟩

end CollisionDetector
